import Mathlib

/-!
Verification of the catnip user-space TCP/IP stack core (demikernel).

This development shallowly embeds the Rust sources under
`src/rust/catnip/src/` into Lean:

* `async/coroutine.rs`            → `Catnip.CoroutineStatus`, `Catnip.Coroutine.resume`
* `protocols/arp/cache/mod.rs`    → `Catnip.ArpCache` and its operations
* `protocols/icmpv4/peer.rs`      → `Catnip.Icmpv4Peer.*`
* `protocols/tcp/peer/mod.rs`     → `Catnip.TcpPeerState.*`, `Catnip.TcpPeer.*`

Machine integers are embedded as `Nat` with explicit `% 2^32` where the Rust
code uses `Wrapping<u32>`; hash maps are embedded as association lists with
replace-on-insert semantics; panics (`assert!`, `unwrap`) are embedded as a
surrounding `Option` (`none` = panic); fallible operations return `Except`.
-/

namespace Catnip

/-- The error taxonomy of the repository (`Fail` in the Rust sources).
Detail strings are kept where the claims need to distinguish them. -/
inductive Fail where
  | Malformed (details : String)
  | ResourceNotFound (details : String)
  | ResourceBusy (details : String)
  | ResourceExhausted (details : String)
  | Timeout
  | TryAgain
  | ConnectionRefused
  | ConnectionAborted
  | Ignored (details : String)
  | Misc (details : String)
  deriving DecidableEq, Repr

/-! ### Association lists

Rust `HashMap` is embedded as an association list with replace-on-insert
semantics: `alInsert` places the new binding at the front and removes any
older binding of the same key, so `alLookup` (first match) agrees with
`HashMap` lookup. -/

/-- Lookup of the first binding of `k`, matching `HashMap::get`. -/
def alLookup {K V : Type} [DecidableEq K] (k : K) : List (K × V) → Option V
  | [] => none
  | (k₀, v₀) :: rest => if k₀ = k then some v₀ else alLookup k rest

/-- Removal of every binding of `k`, matching `HashMap::remove`
(only its effect on the map). -/
def alRemove {K V : Type} [DecidableEq K] (k : K) :
    List (K × V) → List (K × V)
  | [] => []
  | (k₀, v₀) :: rest =>
    if k₀ = k then alRemove k rest else (k₀, v₀) :: alRemove k rest

/-- Replace-on-insert, matching `HashMap::insert`. -/
def alInsert {K V : Type} [DecidableEq K] (k : K) (v : V)
    (l : List (K × V)) : List (K × V) :=
  (k, v) :: alRemove k l

theorem alLookup_remove_self {K V : Type} [DecidableEq K] (k : K)
    (l : List (K × V)) : alLookup k (alRemove k l) = none := by
  induction l with
  | nil => rfl
  | cons p rest ih =>
    cases p with
    | mk a b =>
      by_cases hak : a = k
      · simpa [alRemove, hak] using ih
      · simpa [alRemove, alLookup, hak] using ih

theorem alLookup_remove_ne {K V : Type} [DecidableEq K] {k k₀ : K}
    (l : List (K × V)) (h : k₀ ≠ k) :
    alLookup k (alRemove k₀ l) = alLookup k l := by
  induction l with
  | nil => rfl
  | cons p rest ih =>
    cases p with
    | mk a b =>
      by_cases hak : a = k₀
      · have hk : a ≠ k := by rw [hak]; exact h
        simpa [alRemove, alLookup, hak, hk, h] using ih
      · by_cases hk : a = k
        · simp [alRemove, alLookup, hak, hk, Ne.symm h]
        · simpa [alRemove, alLookup, hak, hk] using ih

theorem alLookup_insert_self {K V : Type} [DecidableEq K] (k : K) (v : V)
    (l : List (K × V)) : alLookup k (alInsert k v l) = some v := by
  simp [alInsert, alLookup]

theorem alLookup_insert_ne {K V : Type} [DecidableEq K] {k k₀ : K} (v : V)
    (l : List (K × V)) (h : k₀ ≠ k) :
    alLookup k (alInsert k₀ v l) = alLookup k l := by
  simp only [alInsert, alLookup, if_neg h]
  exact alLookup_remove_ne l h

/-- Keys of an association list. -/
def alKeys {K V : Type} (l : List (K × V)) : List K := l.map Prod.fst

theorem mem_alKeys_of_lookup_some {K V : Type} [DecidableEq K] {k : K}
    {v : V} {l : List (K × V)} (h : alLookup k l = some v) : k ∈ alKeys l := by
  induction l with
  | nil => simp [alLookup] at h
  | cons p rest ih =>
    cases p with
    | mk a b =>
      by_cases hak : a = k
      · simp [alKeys, hak]
      · simp only [alLookup, if_neg hak] at h
        simp [alKeys] at ih ⊢
        exact Or.inr (ih h)

theorem alLookup_eq_none_of_not_mem {K V : Type} [DecidableEq K] {k : K}
    {l : List (K × V)} (h : k ∉ alKeys l) : alLookup k l = none := by
  induction l with
  | nil => rfl
  | cons p rest ih =>
    cases p with
    | mk a b =>
      simp only [alKeys, List.map, List.mem_cons, not_or] at h
      have hne : ¬a = k := fun hh => h.1 hh.symm
      simp only [alLookup, if_neg hne]
      exact ih h.2

theorem alKeys_remove_sublist {K V : Type} [DecidableEq K] (k : K)
    (l : List (K × V)) : List.Sublist (alKeys (alRemove k l)) (alKeys l) := by
  induction l with
  | nil => simp [alRemove, alKeys]
  | cons p rest ih =>
    cases p with
    | mk a b =>
      by_cases hak : a = k
      · simp only [alRemove, if_pos hak]
        exact List.Sublist.trans ih (List.sublist_cons_self a (alKeys rest))
      · simp only [alRemove, if_neg hak, alKeys, List.map]
        exact List.Sublist.cons₂ a ih

theorem nodup_alKeys_remove {K V : Type} [DecidableEq K] {k : K}
    {l : List (K × V)} (h : (alKeys l).Nodup) :
    (alKeys (alRemove k l)).Nodup :=
  (alKeys_remove_sublist k l).nodup h

theorem not_mem_alKeys_remove_self {K V : Type} [DecidableEq K] (k : K)
    (l : List (K × V)) : k ∉ alKeys (alRemove k l) := by
  intro hmem
  induction l with
  | nil => simp [alRemove, alKeys] at hmem
  | cons p rest ih =>
    cases p with
    | mk a b =>
      by_cases hak : a = k
      · simp only [alRemove, if_pos hak] at hmem
        exact ih hmem
      · simp only [alRemove, if_neg hak, alKeys, List.map, List.mem_cons] at hmem
        rcases hmem with h1 | h2
        · exact hak h1.symm
        · exact ih h2

theorem nodup_alKeys_insert {K V : Type} [DecidableEq K] {k : K} (v : V)
    {l : List (K × V)} (h : (alKeys l).Nodup) :
    (alKeys (alInsert k v l)).Nodup := by
  simp only [alInsert, alKeys, List.map, List.nodup_cons]
  exact ⟨not_mem_alKeys_remove_self k l, nodup_alKeys_remove h⟩

/-! ### ARP cache (`protocols/arp/cache/mod.rs`)

IPv4 addresses and MAC addresses are embedded as `Nat` (32-bit resp.
48-bit values; the claims never use their numeric structure). -/

abbrev Ipv4Addr := Nat
abbrev MacAddress := Nat

/-- `Record` from `protocols/arp/cache/mod.rs`. -/
structure ArpRecord where
  linkAddr : MacAddress
  ipv4Addr : Ipv4Addr
  deriving DecidableEq, Repr

/-- An entry of the TTL cache: value plus absolute expiry time. -/
structure TtlEntry (V : Type) where
  value : V
  expiry : Option Nat
  deriving DecidableEq, Repr

/-- Modelled from the spec: `HashTtlCache` lives in `crate::collections`,
which is not among the provided sources.  Per §2/§4.2 of the spec it is a
"generic keyed store with per-entry expiry and bounded forced-eviction":
a keyed map (association list here) whose entries carry an absolute expiry
instant derived from a per-insert TTL defaulting to the configured TTL.
None of the verified claims advances its clock, so expiry is carried but
never acted upon. -/
structure HashTtlCache (K V : Type) where
  store : List (K × TtlEntry V)
  now : Nat
  defaultTtl : Option Nat
  deriving DecidableEq, Repr

namespace HashTtlCache

/-- Modelled from the spec: "insert with optional TTL (default from
config)"; returns the displaced value like `HashMap::insert`. -/
def insertWithTtl {K V : Type} [DecidableEq K] (c : HashTtlCache K V)
    (k : K) (v : V) (ttl : Option Nat) : HashTtlCache K V × Option V :=
  let expiry := (ttl.orElse (fun _ => c.defaultTtl)).map (c.now + ·)
  let old := (alLookup k c.store).map TtlEntry.value
  ({ c with store := alInsert k ⟨v, expiry⟩ c.store }, old)

/-- Modelled from the spec: insertion with the default TTL. -/
def insert {K V : Type} [DecidableEq K] (c : HashTtlCache K V) (k : K)
    (v : V) : HashTtlCache K V × Option V :=
  c.insertWithTtl k v none

/-- Modelled from the spec: keyed removal returning the removed value. -/
def remove {K V : Type} [DecidableEq K] (c : HashTtlCache K V) (k : K) :
    HashTtlCache K V × Option V :=
  ({ c with store := alRemove k c.store },
   (alLookup k c.store).map TtlEntry.value)

/-- Modelled from the spec: keyed lookup. -/
def get {K V : Type} [DecidableEq K] (c : HashTtlCache K V) (k : K) :
    Option V :=
  (alLookup k c.store).map TtlEntry.value

/-- Modelled from the spec: full clear. -/
def clear {K V : Type} (c : HashTtlCache K V) : HashTtlCache K V :=
  { c with store := [] }

end HashTtlCache

/-- `ArpCache` from `protocols/arp/cache/mod.rs`: forward TTL cache plus
reverse `mac → ipv4` index. -/
structure ArpCache where
  cache : HashTtlCache Ipv4Addr ArpRecord
  rmap : List (MacAddress × Ipv4Addr)
  deriving DecidableEq, Repr

namespace ArpCache

/-- `ArpCache::insert_with_ttl` (lines 36–53): forward insert of the
record, then `rmap.insert(link_addr, ipv4_addr)`. -/
def insertWithTtl (c : ArpCache) (ipv4_addr : Ipv4Addr)
    (link_addr : MacAddress) (ttl : Option Nat) :
    ArpCache × Option MacAddress :=
  let record : ArpRecord := ⟨link_addr, ipv4_addr⟩
  let (cache2, old) := c.cache.insertWithTtl ipv4_addr record ttl
  (⟨cache2, alInsert link_addr ipv4_addr c.rmap⟩, old.map ArpRecord.linkAddr)

/-- `ArpCache::insert` (lines 55–68). -/
def insert (c : ArpCache) (ipv4_addr : Ipv4Addr) (link_addr : MacAddress) :
    ArpCache × Option MacAddress :=
  let record : ArpRecord := ⟨link_addr, ipv4_addr⟩
  let (cache2, old) := c.cache.insert ipv4_addr record
  (⟨cache2, alInsert link_addr ipv4_addr c.rmap⟩, old.map ArpRecord.linkAddr)

/-- `ArpCache::remove` (lines 70–79).  `none` models the panic on an
unknown key and the failure of `assert!(rmap.remove(..).is_some())`. -/
def remove (c : ArpCache) (ipv4_addr : Ipv4Addr) : Option ArpCache :=
  match alLookup ipv4_addr c.cache.store with
  | none => none
  | some entry =>
    match alLookup entry.value.linkAddr c.rmap with
    | none => none
    | some _ =>
      some ⟨{ c.cache with store := alRemove ipv4_addr c.cache.store },
            alRemove entry.value.linkAddr c.rmap⟩

/-- `ArpCache::get_link_addr` (lines 81–85). -/
def getLinkAddr (c : ArpCache) (ipv4_addr : Ipv4Addr) : Option MacAddress :=
  (c.cache.get ipv4_addr).map ArpRecord.linkAddr

/-- `ArpCache::get_ipv4_addr` (lines 87–89). -/
def getIpv4Addr (c : ArpCache) (link_addr : MacAddress) : Option Ipv4Addr :=
  alLookup link_addr c.rmap

/-- `ArpCache::try_evict` (lines 95–107): the underlying cache yields up
to `count` (oldest-first in this embedding) entries, each of which is
dropped from the forward map and has its MAC removed from the reverse
index. -/
def tryEvict : ArpCache → Nat → ArpCache × List (Ipv4Addr × MacAddress)
  | c, 0 => (c, [])
  | c, n + 1 =>
    match c.cache.store with
    | [] => (c, [])
    | (k, e) :: rest =>
      let c2 : ArpCache :=
        ⟨{ c.cache with store := rest }, alRemove e.value.linkAddr c.rmap⟩
      let (c3, evs) := tryEvict c2 n
      (c3, (k, e.value.linkAddr) :: evs)

/-- `ArpCache::clear` (lines 109–112). -/
def clear (c : ArpCache) : ArpCache :=
  ⟨c.cache.clear, []⟩

/-- `ArpCache::export` (lines 114–121). -/
def exportCache (c : ArpCache) : List (Ipv4Addr × MacAddress) :=
  c.cache.store.map (fun p => (p.1, p.2.value.linkAddr))

/-- The iteration of `ArpCache::import` (lines 123–128): `insert` each
pair of the imported map in turn. -/
def importList : ArpCache → List (Ipv4Addr × MacAddress) → ArpCache
  | c, [] => c
  | c, (ip, mac) :: rest => importList (c.insert ip mac).1 rest

/-- `ArpCache::import` (lines 123–128): clear, then insert every entry.
(`import` is a Lean keyword, hence the name.) -/
def importCache (c : ArpCache) (m : List (Ipv4Addr × MacAddress)) :
    ArpCache :=
  importList c.clear m

/-- Well-formedness inherited from Rust `HashMap`: no duplicate keys in
the forward store. -/
def WF (c : ArpCache) : Prop := (alKeys c.cache.store).Nodup

/-- The reverse-index consistency invariant of the spec (I2): forward and
reverse map agree on membership, and `rmap[cache[k].mac] = k`. -/
def Inv (c : ArpCache) : Prop :=
  (∀ ip entry, alLookup ip c.cache.store = some entry →
      entry.value.ipv4Addr = ip ∧
      alLookup entry.value.linkAddr c.rmap = some ip) ∧
  (∀ mac ip, alLookup mac c.rmap = some ip →
      ∃ entry, alLookup ip c.cache.store = some entry ∧
        entry.value.linkAddr = mac)

end ArpCache

/-! ### Coroutine (`async/coroutine.rs`)

`Value` (the dynamically-typed coroutine result) is abstracted as `Nat`;
nothing in the claims depends on the payload. `Instant` and `Duration` are
nanosecond counts (`Nat`). -/

deriving instance DecidableEq for Except

/-- `CoroutineStatus` from `async/coroutine.rs`. -/
inductive CoroutineStatus where
  | Active
  | Completed (r : Except Fail Nat)
  | AsleepUntil (when : Nat)
  deriving DecidableEq, Repr

/-- The per-resume output of a coroutine body: `GeneratorState` from
`async/coroutine.rs` (`Yielded(Option<Duration>)` or `Complete(result)`). -/
inductive GeneratorState where
  | Yielded (d : Option Nat)
  | Complete (r : Except Fail Nat)
  deriving DecidableEq, Repr

namespace Coroutine

/-- `Coroutine::resume` from `async/coroutine.rs`, lines 91–126.
`body` is what the generator produces if it is resumed; the result is
`none` on panic, and otherwise `some (newStatus, returnValue)`.  The
`Completed` branch never consumes `body` (the generator is untouched). -/
def resume (status : CoroutineStatus) (now : Nat) (body : GeneratorState) :
    Option (CoroutineStatus × Bool) :=
  match status with
  | CoroutineStatus.Active => none
  | CoroutineStatus.Completed r => some (CoroutineStatus.Completed r, true)
  | CoroutineStatus.AsleepUntil when =>
    if now < when then
      none
    else
      match body with
      | GeneratorState.Yielded duration =>
        let z := 0
        let d := duration.getD z
        let d := if d = z then 1 else d
        some (CoroutineStatus.AsleepUntil (now + d), false)
      | GeneratorState.Complete result =>
        some (CoroutineStatus.Completed result, true)

end Coroutine

/-! ### TCP peer (`protocols/tcp/peer/mod.rs`)

Ports are 16-bit values embedded as `Nat`; sequence numbers are
`Wrapping<u32>`, embedded as `Nat` with explicit `% 2^32`. -/

abbrev Port := Nat

/-- `ip::Port::first_private_port()`: the start of the ephemeral range. -/
def firstPrivatePort : Port := 49152

/-- `ip::Port::is_private`. -/
def portIsPrivate (p : Port) : Bool := firstPrivatePort ≤ p

/-- `Ipv4Addr::is_broadcast`. -/
def ipIsBroadcast (a : Ipv4Addr) : Bool := a = 0xffffffff

/-- `Ipv4Addr::is_multicast` (224.0.0.0/4). -/
def ipIsMulticast (a : Ipv4Addr) : Bool := 0xe0000000 ≤ a ∧ a < 0xf0000000

/-- `Ipv4Addr::is_unspecified`. -/
def ipIsUnspecified (a : Ipv4Addr) : Bool := a = 0

/-- `ipv4::Endpoint`. -/
structure Endpoint where
  addr : Ipv4Addr
  port : Port
  deriving DecidableEq, Repr

/-- `TcpConnectionId`; the Rust fields are named `local` and `remote`
(`local` is a Lean keyword, hence `localEp`/`remoteEp`). -/
structure TcpConnectionId where
  localEp : Endpoint
  remoteEp : Endpoint
  deriving DecidableEq, Repr

abbrev TcpConnectionHandle := Nat

/-- `TcpSegment` from `protocols/tcp/segment` (only its header fields and
the payload length; the segment module is not among the provided sources,
so field defaults follow the spec's `TcpSegment::default()` builder: all
flags clear, all optional fields absent, numeric fields zero). -/
structure TcpSegment where
  srcIpv4Addr : Option Ipv4Addr := none
  srcPort : Option Port := none
  destIpv4Addr : Option Ipv4Addr := none
  destPort : Option Port := none
  seqNum : Nat := 0
  ackNum : Nat := 0
  syn : Bool := false
  ack : Bool := false
  rst : Bool := false
  mss : Option Nat := none
  windowSize : Nat := 0
  payloadLen : Nat := 0
  deriving DecidableEq, Repr

/-- The slice of `TcpConnection` state the peer module manipulates
directly (`get_handle`, `receive_queue`; the connection module is not
among the provided sources). -/
structure TcpConnection where
  cxnid : TcpConnectionId
  handle : TcpConnectionHandle
  localIsn : Nat
  receiveQueue : List TcpSegment
  deriving DecidableEq, Repr

/-- `TcpPeerState` from `protocols/tcp/peer/mod.rs` (the fields the
claims touch; `HashMap`/`HashSet` as association lists resp. lists,
`VecDeque` pools as lists popped at the front and pushed at the back). -/
structure TcpPeerState where
  assignedHandles : List (TcpConnectionHandle × TcpConnectionId)
  connections : List (TcpConnectionId × TcpConnection)
  openPorts : List Port
  unassignedConnectionHandles : List TcpConnectionHandle
  unassignedPrivatePorts : List Port
  deriving DecidableEq, Repr

/-- `HashSet::insert` on the open-port set. -/
def portSetInsert (p : Port) (l : List Port) : List Port :=
  if p ∈ l then l else p :: l

namespace TcpPeerState

/-- `TcpPeerState::new_connection` (lines 125–149).  The outer `Option`
models the two `assert!(... .is_none())` panics; the `Except` models
handle-pool exhaustion.  The local ISN is produced by `IsnGenerator`
(not among the provided sources); its value plays no role in any claim
and is embedded as `0`. -/
def newConnection (s : TcpPeerState) (cxnid : TcpConnectionId) :
    Option (Except Fail (TcpPeerState × TcpConnection)) :=
  match s.unassignedConnectionHandles with
  | [] => some (Except.error (Fail.ResourceExhausted "no more connection handles"))
  | handle :: restHandles =>
    let localIsn := 0
    let cxn : TcpConnection := ⟨cxnid, handle, localIsn, []⟩
    if (alLookup cxnid s.connections).isSome then
      none
    else if (alLookup handle s.assignedHandles).isSome then
      none
    else
      some (Except.ok
        ({ s with
            unassignedConnectionHandles := restHandles,
            connections := alInsert cxnid cxn s.connections,
            assignedHandles := alInsert handle cxnid s.assignedHandles,
            openPorts := portSetInsert cxnid.localEp.port s.openPorts },
         cxn))

/-- The observable events of `close_connection`. -/
inductive TcpEvent where
  | TcpConnectionClosed (handle : TcpConnectionHandle) (error : Option Fail)
  deriving DecidableEq, Repr

/-- `TcpPeerState::close_connection` (lines 345–392): remove the
connection (unknown id → `ResourceNotFound`), release the local port when
it is private, and emit `TcpConnectionClosed` when `notify` is set.  The
handle is NOT removed from `assigned_handles` and not returned to the
pool (`release_connection_handle` is dead code in the source).  The
best-effort RST cast on the error path is background work and does not
affect the peer state. -/
def closeConnection (s : TcpPeerState) (cxnid : TcpConnectionId)
    (error : Option Fail) (notify : Bool) :
    Except Fail (TcpPeerState × List TcpEvent) :=
  match alLookup cxnid s.connections with
  | none => Except.error (Fail.ResourceNotFound "unrecognized connection ID")
  | some cxn =>
    let s2 := { s with connections := alRemove cxnid s.connections }
    let localPort := cxnid.localEp.port
    let s3 :=
      if portIsPrivate localPort then
        { s2 with
            unassignedPrivatePorts := s2.unassignedPrivatePorts ++ [localPort] }
      else s2
    let evs :=
      if notify then [TcpEvent.TcpConnectionClosed cxn.handle error] else []
    Except.ok (s3, evs)

/-- The handshake acceptance test from `TcpPeerState::handshake`
(lines 334–337): `segment.ack && ack_was_sent != segment.syn &&
segment.ack_num == expected_ack_num`. -/
def handshakeAccepts (ackWasSent : Bool) (expectedAckNum : Nat)
    (segment : TcpSegment) : Bool :=
  segment.ack && (ackWasSent != segment.syn) &&
    (segment.ackNum == expectedAckNum)

/-- The receive loop of `TcpPeerState::handshake` (lines 319–341) over
the sequence of segments popped from the connection's receive queue:
`none` means the loop is still waiting. -/
def handshakeLoop (ackWasSent : Bool) (expectedAckNum : Nat) :
    List TcpSegment → Option (Except Fail TcpSegment)
  | [] => none
  | segment :: rest =>
    if segment.rst then some (Except.error Fail.ConnectionRefused)
    else if handshakeAccepts ackWasSent expectedAckNum segment then
      some (Except.ok segment)
    else handshakeLoop ackWasSent expectedAckNum rest

/-- `TcpPeerState::handshake` (lines 297–343), abstracted over the SYN
(or SYN+ACK) segment it sends: `ack_was_sent` is that segment's ACK flag
and `expected_ack_num = seq_num + Wrapping(1)` its sequence number plus
one, wrapping at 2^32. -/
def handshake (sentSeqNum : Nat) (sentAck : Bool)
    (queue : List TcpSegment) : Option (Except Fail TcpSegment) :=
  handshakeLoop sentAck ((sentSeqNum + 1) % 2 ^ 32) queue

end TcpPeerState

namespace TcpPeer

/-- Work enqueued by `TcpPeer::receive` onto `background_work`. -/
inductive BgWork where
  | NewPassiveConnection (segment : TcpSegment)
  | Cast (bytes : TcpSegment)
  deriving DecidableEq, Repr

/-- `TcpPeer::receive` (lines 533–622), starting from the decoded
segment.  The outer `Option` models the `segment.dest_ipv4_addr.unwrap()`
panic; the result carries the updated peer state and the background work
added during the call.  The closed-port arm composes the RST segment of
lines 598–615. -/
def receive (s : TcpPeerState) (segment : TcpSegment) :
    Option (Except Fail (TcpPeerState × List BgWork)) :=
  match segment.destIpv4Addr with
  | none => none
  | some localIpv4Addr =>
  match segment.srcIpv4Addr with
  | none => some (Except.error (Fail.Malformed "source IPv4 address is missing"))
  | some remoteIpv4Addr =>
  if ipIsBroadcast remoteIpv4Addr || ipIsMulticast remoteIpv4Addr ||
      ipIsUnspecified remoteIpv4Addr then
    some (Except.error (Fail.Malformed "only unicast addresses are supported by TCP"))
  else
  match segment.destPort with
  | none => some (Except.error (Fail.Malformed "destination port is zero"))
  | some localPort =>
  match segment.srcPort with
  | none => some (Except.error (Fail.Malformed "source port is zero"))
  | some remotePort =>
  if localPort ∈ s.openPorts then
    if segment.syn && !segment.ack && !segment.rst then
      some (Except.ok (s, [BgWork.NewPassiveConnection segment]))
    else
      let cxnid : TcpConnectionId :=
        ⟨⟨localIpv4Addr, localPort⟩, ⟨remoteIpv4Addr, remotePort⟩⟩
      match alLookup cxnid s.connections with
      | some cxn =>
        let cxn2 : TcpConnection :=
          { cxn with receiveQueue := cxn.receiveQueue ++ [segment] }
        let s2 : TcpPeerState :=
          { s with connections := alInsert cxnid cxn2 s.connections }
        some (Except.ok (s2, []))
      | none => some (Except.error (Fail.ResourceNotFound "unrecognized connection ID"))
  else
    -- `u32::try_from(segment.payload.len())?`
    if segment.payloadLen < 2 ^ 32 then
      let ackNum0 := (segment.seqNum + segment.payloadLen) % 2 ^ 32
      let ackNum := if segment.syn then (ackNum0 + 1) % 2 ^ 32 else ackNum0
      let rstSegment : TcpSegment :=
        { destIpv4Addr := some remoteIpv4Addr,
          destPort := some remotePort,
          srcPort := some localPort,
          ackNum := ackNum,
          ack := true,
          rst := true }
      some (Except.ok (s, [BgWork.Cast rstSegment]))
    else
      some (Except.error (Fail.Misc "payload length exceeds u32"))

/-- Outcome of a peer's `advance_clock`. -/
inductive ClockOutcome where
  | returned (warnedError : Bool)
  | panicked
  deriving DecidableEq, Repr

/-- `TcpPeer::advance_clock` (lines 756–775), as a function of the
result `background_work.poll(now)` produced: an error is logged with
`warn!` and the call returns normally. -/
def advanceClockOutcome : Option (Except Fail Unit) → ClockOutcome
  | none => ClockOutcome.returned false
  | some (Except.ok _) => ClockOutcome.returned false
  | some (Except.error _) => ClockOutcome.returned true

/-- The handle/connection bijection invariant of the spec (I1). -/
def HandleInv (s : TcpPeerState) : Prop :=
  (∀ h cxnid, alLookup h s.assignedHandles = some cxnid →
      (alLookup cxnid s.connections).isSome) ∧
  (∀ cxnid cxn, alLookup cxnid s.connections = some cxn →
      ∃ h, alLookup h s.assignedHandles = some cxnid)

end TcpPeer

/-! ### ICMPv4 peer (`protocols/icmpv4/peer.rs`) -/

namespace Icmpv4Peer

/-- Outcome of a coroutine body that may panic. -/
inductive BodyOutcome where
  | panicked
  | completed (r : Except Fail Unit)
  deriving DecidableEq, Repr

/-- The body of `Icmpv4Peer::reply_to_ping` (lines 154–191) as a
function of what its inner ARP await produced: the result is passed to
`.unwrap()`, which panics on an error. -/
def replyToPingBody (arpResult : Except Fail MacAddress) : BodyOutcome :=
  match arpResult with
  | Except.error _ => BodyOutcome.panicked
  | Except.ok _ => BodyOutcome.completed (Except.ok ())

/-- `Icmpv4Peer::advance_clock` (lines 213–217), as a function of the
result `async_work.poll(now)` produced: `assert!(result.is_ok())` panics
on an error. -/
def advanceClockOutcome : Option (Except Fail Unit) → TcpPeer.ClockOutcome
  | none => TcpPeer.ClockOutcome.returned false
  | some (Except.ok _) => TcpPeer.ClockOutcome.returned false
  | some (Except.error _) => TcpPeer.ClockOutcome.panicked

/-- The decoded header fields `Icmpv4Peer::receive` (lines 52–61)
inspects before dispatching. -/
structure DatagramMeta where
  ethDestAddr : MacAddress
  ipv4DestAddr : Ipv4Addr
  deriving DecidableEq, Repr

/-- Outcome of `Icmpv4Peer::receive` up to dispatch. -/
inductive ReceiveOutcome where
  | failed (e : Fail)
  | panicked
  | dispatched
  deriving DecidableEq, Repr

/-- The ingress checks of `Icmpv4Peer::receive` (lines 52–61):
`Icmpv4Datagram::try_from` first (`?` propagates `Malformed`), then the
two `assert_eq!` checks against the configured addresses, then dispatch. -/
def receiveCheck (decoded : Option DatagramMeta)
    (myLinkAddr : MacAddress) (myIpv4Addr : Ipv4Addr) : ReceiveOutcome :=
  match decoded with
  | none => ReceiveOutcome.failed (Fail.Malformed "undecodable ICMPv4 datagram")
  | some d =>
    if d.ethDestAddr = myLinkAddr then
      if d.ipv4DestAddr = myIpv4Addr then ReceiveOutcome.dispatched
      else ReceiveOutcome.panicked
    else ReceiveOutcome.panicked

/-- Modelled from the spec: `yield_until!(predicate, now, timeout)` (the
macro is not among the provided sources) "yields `None` repeatedly until
`predicate` holds or the optional timeout elapses; returns a boolean (did
predicate hold?)".  `predHoldsAt` is the instant the predicate becomes
true (`none` = never); the call starts at `start`; the result pairs the
boolean with the instant at which the wait ended. -/
def yieldUntilTimed (predHoldsAt : Option Nat) (start timeout : Nat) :
    Bool × Nat :=
  match predHoldsAt with
  | some t =>
    if max t start ≤ start + timeout then (true, max t start)
    else (false, start + timeout)
  | none => (false, start + timeout)

/-- `Icmpv4Peer::ping` (lines 96–152): `t0` is taken at coroutine start;
the ARP query completes at `arpDone`; the echo request is emitted and the
`(id, seq)` key inserted at `arpDone`; the reply (if any) removes the key
at `replyAt`; the wait is `yield_until!` with `timeout`.  On success the
future resolves to `rt.now() - t0`, else to `Fail::Timeout`. -/
def ping (t0 arpDone : Nat) (replyAt : Option Nat) (timeout : Nat) :
    Except Fail Nat :=
  let w := yieldUntilTimed replyAt arpDone timeout
  if w.1 then Except.ok (w.2 - t0) else Except.error Fail.Timeout

end Icmpv4Peer

/-! ## Theorems for the claims -/

/-- C7: a non-completed, due coroutine resumed at `now` whose body yields
`None` or a zero duration is put to sleep until `now + 1 ns`; a yield of
`Some d` with `d > 0` puts it to sleep until `now + d`; a completing body
moves the status to `Completed(result)`. -/
theorem coroutine_resume_zero_yield_rewrite
    (now when : Nat) (h : when ≤ now) (r : Except Fail Nat) :
    (Coroutine.resume (CoroutineStatus.AsleepUntil when) now
        (GeneratorState.Yielded none) =
      some (CoroutineStatus.AsleepUntil (now + 1), false)) ∧
    (Coroutine.resume (CoroutineStatus.AsleepUntil when) now
        (GeneratorState.Yielded (some 0)) =
      some (CoroutineStatus.AsleepUntil (now + 1), false)) ∧
    (∀ d : Nat, 0 < d →
      Coroutine.resume (CoroutineStatus.AsleepUntil when) now
          (GeneratorState.Yielded (some d)) =
        some (CoroutineStatus.AsleepUntil (now + d), false)) ∧
    (Coroutine.resume (CoroutineStatus.AsleepUntil when) now
        (GeneratorState.Complete r) =
      some (CoroutineStatus.Completed r, true)) := by
  have hn : ¬now < when := not_lt.mpr h
  refine ⟨?_, ?_, ?_, ?_⟩
  · simp [Coroutine.resume, hn]
  · simp [Coroutine.resume, hn]
  · intro d hd
    simp [Coroutine.resume, hn, Nat.pos_iff_ne_zero.mp hd]
  · simp [Coroutine.resume, hn]

/-- C7 witness: the theorem applied at `when = 3`, `now = 5`. -/
theorem coroutine_resume_zero_yield_rewrite_witness :
    Coroutine.resume (CoroutineStatus.AsleepUntil 3) 5
        (GeneratorState.Yielded none) =
      some (CoroutineStatus.AsleepUntil 6, false) :=
  (coroutine_resume_zero_yield_rewrite 5 3 (by decide) (Except.ok 0)).1

/-- C9: `Coroutine::resume` panics on an `Active` coroutine and on an
`AsleepUntil(when)` coroutine with `now < when`; it is total once the
coroutine is due or completed; resuming a `Completed` coroutine returns
`true` with the status unchanged and never consults the generator body. -/
theorem coroutine_resume_precondition
    (now when : Nat) (r : Except Fail Nat) (body body₂ : GeneratorState) :
    (Coroutine.resume CoroutineStatus.Active now body = none) ∧
    (now < when →
      Coroutine.resume (CoroutineStatus.AsleepUntil when) now body = none) ∧
    (when ≤ now →
      (Coroutine.resume (CoroutineStatus.AsleepUntil when) now body).isSome) ∧
    (Coroutine.resume (CoroutineStatus.Completed r) now body =
      some (CoroutineStatus.Completed r, true)) ∧
    (Coroutine.resume (CoroutineStatus.Completed r) now body =
      Coroutine.resume (CoroutineStatus.Completed r) now body₂) := by
  refine ⟨rfl, ?_, ?_, rfl, rfl⟩
  · intro hlt
    simp [Coroutine.resume, hlt]
  · intro hle
    have hn : ¬now < when := not_lt.mpr hle
    cases body with
    | Yielded d => simp [Coroutine.resume, hn]
    | Complete res => simp [Coroutine.resume, hn]

/-- C9 witness: the theorem applied at `when = 2`, `now = 7`. -/
theorem coroutine_resume_precondition_witness :
    (Coroutine.resume (CoroutineStatus.AsleepUntil 2) 7
      (GeneratorState.Yielded none)).isSome :=
  (coroutine_resume_precondition 7 2 (Except.ok 0)
    (GeneratorState.Yielded none) (GeneratorState.Yielded none)).2.2.1
    (by decide)

/-- C2 counterexample: a background future of the ICMPv4 peer that
terminates with an error makes `Icmpv4Peer::advance_clock` panic
(`assert!(result.is_ok())`) instead of logging a warning and returning
normally. -/
theorem icmp_advance_clock_panics_on_error :
    Icmpv4Peer.advanceClockOutcome (some (Except.error Fail.Timeout)) =
      TcpPeer.ClockOutcome.panicked ∧
    TcpPeer.ClockOutcome.panicked ≠ TcpPeer.ClockOutcome.returned true :=
  ⟨rfl, by decide⟩

/-- C2 (amended): `TcpPeer::advance_clock` logs a warning and returns
normally on a failed background future, but `Icmpv4Peer::advance_clock`
asserts the result is `Ok` and panics on an error, and the
`reply_to_ping` background body unwraps its inner ARP await and panics
when that await fails; on successful background futures both peers
return normally. -/
theorem background_error_handling (e : Fail) :
    TcpPeer.advanceClockOutcome (some (Except.error e)) =
      TcpPeer.ClockOutcome.returned true ∧
    TcpPeer.advanceClockOutcome (some (Except.ok ())) =
      TcpPeer.ClockOutcome.returned false ∧
    Icmpv4Peer.advanceClockOutcome (some (Except.error e)) =
      TcpPeer.ClockOutcome.panicked ∧
    Icmpv4Peer.advanceClockOutcome (some (Except.ok ())) =
      TcpPeer.ClockOutcome.returned false ∧
    Icmpv4Peer.replyToPingBody (Except.error e) =
      Icmpv4Peer.BodyOutcome.panicked :=
  ⟨rfl, rfl, rfl, rfl, rfl⟩

/-- C5: a ping whose matching echo reply lands within `timeout` of the
ping call resolves to the elapsed duration, which is at most `timeout`
(durations are `Nat`, hence nonnegative); a ping that never sees a reply
resolves to `Fail::Timeout`. -/
theorem ping_rtt_bound (t0 arpDone r timeout : Nat)
    (h1 : t0 ≤ arpDone) (h2 : arpDone ≤ r) (h3 : r ≤ t0 + timeout) :
    (Icmpv4Peer.ping t0 arpDone (some r) timeout = Except.ok (r - t0) ∧
      r - t0 ≤ timeout) ∧
    Icmpv4Peer.ping t0 arpDone none timeout = Except.error Fail.Timeout := by
  have hmax : max r arpDone = r := max_eq_left h2
  have hle : r ≤ arpDone + timeout := by omega
  refine ⟨⟨?_, by omega⟩, ?_⟩
  · simp [Icmpv4Peer.ping, Icmpv4Peer.yieldUntilTimed, hmax, hle]
  · simp [Icmpv4Peer.ping, Icmpv4Peer.yieldUntilTimed]

/-- C5 witness: the theorem applied at `t0 = 0`, ARP done at `1`, reply
at `3`, `timeout = 5`. -/
theorem ping_rtt_bound_witness :
    Icmpv4Peer.ping 0 1 (some 3) 5 = Except.ok 3 ∧ (3 : Nat) ≤ 5 :=
  ⟨(ping_rtt_bound 0 1 3 5 (by decide) (by decide) (by decide)).1.1,
   (ping_rtt_bound 0 1 3 5 (by decide) (by decide) (by decide)).1.2⟩

/-- C10: on a decodable ICMPv4 datagram whose Ethernet destination MAC or
IPv4 destination address differs from the configured local addresses,
`Icmpv4Peer::receive` panics via `assert_eq!` rather than returning any
error; when both destinations match, the assertions pass and receive
proceeds to dispatch. -/
theorem icmp_ingress_assertion (d : Icmpv4Peer.DatagramMeta)
    (myLinkAddr : MacAddress) (myIpv4Addr : Ipv4Addr) :
    (d.ethDestAddr ≠ myLinkAddr ∨ d.ipv4DestAddr ≠ myIpv4Addr →
      Icmpv4Peer.receiveCheck (some d) myLinkAddr myIpv4Addr =
        Icmpv4Peer.ReceiveOutcome.panicked ∧
      ∀ e, Icmpv4Peer.receiveCheck (some d) myLinkAddr myIpv4Addr ≠
        Icmpv4Peer.ReceiveOutcome.failed e) ∧
    (d.ethDestAddr = myLinkAddr → d.ipv4DestAddr = myIpv4Addr →
      Icmpv4Peer.receiveCheck (some d) myLinkAddr myIpv4Addr =
        Icmpv4Peer.ReceiveOutcome.dispatched) := by
  constructor
  · intro hne
    rcases hne with hmac | hip
    · constructor
      · simp [Icmpv4Peer.receiveCheck, hmac]
      · intro e
        simp [Icmpv4Peer.receiveCheck, hmac]
    · constructor
      · by_cases hmac : d.ethDestAddr = myLinkAddr
        · simp [Icmpv4Peer.receiveCheck, hmac, hip]
        · simp [Icmpv4Peer.receiveCheck, hmac]
      · intro e
        by_cases hmac : d.ethDestAddr = myLinkAddr
        · simp [Icmpv4Peer.receiveCheck, hmac, hip]
        · simp [Icmpv4Peer.receiveCheck, hmac]
  · intro hmac hip
    simp [Icmpv4Peer.receiveCheck, hmac, hip]

/-- C10 witness: the theorem applied to a datagram whose Ethernet
destination differs from the local MAC. -/
theorem icmp_ingress_assertion_witness :
    Icmpv4Peer.receiveCheck (some ⟨1, 2⟩) 3 2 =
      Icmpv4Peer.ReceiveOutcome.panicked :=
  ((icmp_ingress_assertion ⟨1, 2⟩ 3 2).1 (Or.inl (by decide))).1

/-- A segment neither rejected nor accepted by the handshake loop is
skipped: the loop result on `igs ++ l` equals the result on `l`. -/
theorem handshakeLoop_skips_ignored (aws : Bool) (ean : Nat)
    (igs : List TcpSegment)
    (hig : ∀ g ∈ igs, g.rst = false ∧
      TcpPeerState.handshakeAccepts aws ean g = false) :
    ∀ l, TcpPeerState.handshakeLoop aws ean (igs ++ l) =
      TcpPeerState.handshakeLoop aws ean l := by
  induction igs with
  | nil => intro l; rfl
  | cons g rest ih =>
    intro l
    have hg := hig g (List.mem_cons_self g rest)
    have hrest : ∀ g₀ ∈ rest, g₀.rst = false ∧
        TcpPeerState.handshakeAccepts aws ean g₀ = false :=
      fun g₀ hm => hig g₀ (List.mem_cons_of_mem g hm)
    simp only [List.cons_append, TcpPeerState.handshakeLoop, hg.1, hg.2,
      Bool.false_eq_true, if_false]
    exact ih hrest l

/-- C6: the handshake coroutine returns `ConnectionRefused` on popping a
segment with RST set, returns the first popped segment with ACK set whose
SYN flag differs from whether the sent segment carried an ACK and whose
ack number is the sent sequence number plus one (mod 2^32), and keeps
looping while only other segments arrive. -/
theorem handshake_acceptance (sentSeqNum : Nat) (sentAck : Bool)
    (igs rest : List TcpSegment) (s : TcpSegment)
    (hig : ∀ g ∈ igs, g.rst = false ∧
      TcpPeerState.handshakeAccepts sentAck ((sentSeqNum + 1) % 2 ^ 32) g =
        false) :
    (s.rst = true →
      TcpPeerState.handshake sentSeqNum sentAck (igs ++ s :: rest) =
        some (Except.error Fail.ConnectionRefused)) ∧
    (s.rst = false →
      s.ack = true → (sentAck ≠ s.syn) →
      s.ackNum = (sentSeqNum + 1) % 2 ^ 32 →
      TcpPeerState.handshake sentSeqNum sentAck (igs ++ s :: rest) =
        some (Except.ok s)) ∧
    TcpPeerState.handshake sentSeqNum sentAck igs = none := by
  unfold TcpPeerState.handshake
  refine ⟨?_, ?_, ?_⟩
  · intro hrst
    rw [handshakeLoop_skips_ignored _ _ igs hig]
    simp [TcpPeerState.handshakeLoop, hrst]
  · intro hrst hack hsyn hnum
    have hb : (sentAck != s.syn) = true := by
      cases hs1 : sentAck <;> cases hs2 : s.syn <;> simp_all
    have haccept : TcpPeerState.handshakeAccepts sentAck
        ((sentSeqNum + 1) % 2 ^ 32) s = true := by
      simp [TcpPeerState.handshakeAccepts, hack, hnum, hb]
    rw [handshakeLoop_skips_ignored _ _ igs hig]
    simp only [TcpPeerState.handshakeLoop]
    rw [hrst, haccept]
    simp
  · have := handshakeLoop_skips_ignored sentAck ((sentSeqNum + 1) % 2 ^ 32)
      igs hig []
    simpa using this

/-- C6 witness: the theorem applied to an active-side handshake (sent
segment had no ACK) with one ignored segment, accepting a SYN+ACK whose
ack number is `sentSeqNum + 1`. -/
theorem handshake_acceptance_witness :
    TcpPeerState.handshake 100 false
        ([{ syn := true }] ++
          [{ syn := true, ack := true, ackNum := 101 }]) =
      some (Except.ok { syn := true, ack := true, ackNum := 101 }) :=
  (handshake_acceptance 100 false [{ syn := true }] []
      { syn := true, ack := true, ackNum := 101 }
      (by intro g hm
          simp only [List.mem_singleton] at hm
          subst hm
          exact ⟨rfl, by decide⟩)).2.1
    rfl rfl (by decide) (by decide)

/-- C3: a decodable inbound TCP segment whose destination port is not
open makes `TcpPeer::receive` return `Ok`, leave the peer state (and so
the connection table) unchanged, and enqueue as background work the cast
of exactly one RST segment whose ack number is the segment's sequence
number plus its payload length, plus one more if SYN is set, mod 2^32. -/
theorem rst_on_closed_port (s : TcpPeerState) (segment : TcpSegment)
    (localAddr remoteAddr : Ipv4Addr) (localPort remotePort : Port)
    (h1 : segment.destIpv4Addr = some localAddr)
    (h2 : segment.srcIpv4Addr = some remoteAddr)
    (h3 : ipIsBroadcast remoteAddr = false)
    (h4 : ipIsMulticast remoteAddr = false)
    (h5 : ipIsUnspecified remoteAddr = false)
    (h6 : segment.destPort = some localPort)
    (h7 : segment.srcPort = some remotePort)
    (h8 : localPort ∉ s.openPorts)
    (h9 : segment.payloadLen < 2 ^ 32) :
    TcpPeer.receive s segment =
      some (Except.ok (s,
        [TcpPeer.BgWork.Cast
          { destIpv4Addr := some remoteAddr,
            destPort := some remotePort,
            srcPort := some localPort,
            ackNum := (segment.seqNum + segment.payloadLen +
              (if segment.syn then 1 else 0)) % 2 ^ 32,
            ack := true,
            rst := true }])) := by
  have hnum : (if segment.syn then
        ((segment.seqNum + segment.payloadLen) % 2 ^ 32 + 1) % 2 ^ 32
      else (segment.seqNum + segment.payloadLen) % 2 ^ 32) =
      (segment.seqNum + segment.payloadLen +
        (if segment.syn then 1 else 0)) % 2 ^ 32 := by
    cases hsy : segment.syn with
    | false => simp
    | true => simp
  simp only [TcpPeer.receive, h1, h2, h3, h4, h5, h6, h7, Bool.or_self,
    Bool.or_false, Bool.false_or, if_false, h9, if_true, hnum]
  simp [h8, h9, hnum]

/-- C3 witness: a SYN to closed port 9999 (empty peer state) draws one
RST cast with ack number `seq + 1`. -/
theorem rst_on_closed_port_witness :
    TcpPeer.receive ⟨[], [], [], [], []⟩
        { destIpv4Addr := some 1, srcIpv4Addr := some 2,
          destPort := some 9999, srcPort := some 4000,
          seqNum := 100, syn := true } =
      some (Except.ok (⟨[], [], [], [], []⟩,
        [TcpPeer.BgWork.Cast
          { destIpv4Addr := some 2, destPort := some 4000,
            srcPort := some 9999,
            ackNum := (100 + 0 + (if true then 1 else 0)) % 2 ^ 32,
            ack := true, rst := true }])) :=
  rst_on_closed_port ⟨[], [], [], [], []⟩
    { destIpv4Addr := some 1, srcIpv4Addr := some 2,
      destPort := some 9999, srcPort := some 4000,
      seqNum := 100, syn := true }
    1 2 9999 4000 rfl rfl (by decide) (by decide) (by decide) rfl rfl
    (by simp) (by norm_num)

/-- A reachable test state for the handle/connection bijection: one free
handle, nothing assigned, nothing open. -/
def tcpS0 : TcpPeerState := ⟨[], [], [], [7], []⟩

/-- The connection id `(10.x:49152, remote:80)` with a private local
port. -/
def tcpCxnId0 : TcpConnectionId := ⟨⟨1, 49152⟩, ⟨2, 80⟩⟩

/-- The connection `new_connection` builds in `tcpS0`. -/
def tcpCxn0 : TcpConnection := ⟨tcpCxnId0, 7, 0, []⟩

/-- The state after `new_connection(tcpCxnId0)` in `tcpS0`. -/
def tcpS1 : TcpPeerState :=
  ⟨[(7, tcpCxnId0)], [(tcpCxnId0, tcpCxn0)], [49152], [], []⟩

/-- The state after `close_connection(tcpCxnId0, None, false)` in
`tcpS1`: the connection is gone and the private port released, but the
handle binding survives. -/
def tcpS2 : TcpPeerState := ⟨[(7, tcpCxnId0)], [], [49152], [], [49152]⟩

/-- C1: the handle/connection bijection holds after `new_connection` but
is BROKEN by `close_connection`, which removes the connection while
leaving the handle assigned (the handle is never released;
`release_connection_handle` is dead code).  Evaluated on the concrete
reachable state `tcpS1`. -/
theorem handle_bijection_close_violation :
    TcpPeerState.newConnection tcpS0 tcpCxnId0 =
      some (Except.ok (tcpS1, tcpCxn0)) ∧
    TcpPeer.HandleInv tcpS1 ∧
    TcpPeerState.closeConnection tcpS1 tcpCxnId0 none false =
      Except.ok (tcpS2, []) ∧
    alLookup 7 tcpS2.assignedHandles = some tcpCxnId0 ∧
    alLookup tcpCxnId0 tcpS2.connections = none ∧
    ¬TcpPeer.HandleInv tcpS2 := by
  refine ⟨by decide, ⟨?_, ?_⟩, by decide, by decide, by decide, ?_⟩
  · intro h cxnid hc
    by_cases h7 : (7 : TcpConnectionHandle) = h
    · simp only [tcpS1, alLookup, if_pos h7] at hc
      cases hc
      decide
    · simp only [tcpS1, alLookup, if_neg h7] at hc
      cases hc
  · intro cxnid cxn hc
    by_cases hid : tcpCxnId0 = cxnid
    · refine ⟨7, ?_⟩
      rw [← hid]
      decide
    · simp only [tcpS1, alLookup, if_neg hid] at hc
      cases hc
  · intro hinv
    have h := hinv.1 7 tcpCxnId0 (by decide)
    rw [show alLookup tcpCxnId0 tcpS2.connections = none from by decide] at h
    simp at h

/-- Core preservation argument for an ARP insert of a fresh pair: any
entry whose record is `(mac, ip)` keeps `WF` and `Inv` when `ip` is not a
forward key and `mac` is not a reverse key. -/
theorem arp_insert_core (c : ArpCache) (ip : Ipv4Addr) (mac : MacAddress)
    (e : TtlEntry ArpRecord) (he : e.value = ⟨mac, ip⟩)
    (hwf : c.WF) (hinv : c.Inv)
    (hip : alLookup ip c.cache.store = none)
    (hmac : alLookup mac c.rmap = none) :
    (ArpCache.mk { c.cache with store := alInsert ip e c.cache.store }
        (alInsert mac ip c.rmap)).WF ∧
    (ArpCache.mk { c.cache with store := alInsert ip e c.cache.store }
        (alInsert mac ip c.rmap)).Inv := by
  constructor
  · exact nodup_alKeys_insert e hwf
  · constructor
    · intro ip' entry' h'
      by_cases hip' : ip = ip'
      · subst hip'
        rw [alLookup_insert_self] at h'
        cases h'
        rw [he]
        exact ⟨rfl, alLookup_insert_self mac ip c.rmap⟩
      · rw [alLookup_insert_ne e c.cache.store hip'] at h'
        obtain ⟨ha, hb⟩ := hinv.1 ip' entry' h'
        have hmacne : mac ≠ entry'.value.linkAddr := by
          intro hh
          rw [← hh] at hb
          rw [hmac] at hb
          cases hb
        refine ⟨ha, ?_⟩
        rw [alLookup_insert_ne ip c.rmap hmacne]
        exact hb
    · intro mac' ip'' h'
      by_cases hm : mac = mac'
      · subst hm
        rw [alLookup_insert_self] at h'
        cases h'
        refine ⟨e, alLookup_insert_self ip e c.cache.store, by rw [he]⟩
      · rw [alLookup_insert_ne ip c.rmap hm] at h'
        obtain ⟨entry'', hE1, hE2⟩ := hinv.2 mac' ip'' h'
        have hipne : ip ≠ ip'' := by
          intro hh
          rw [← hh] at hE1
          rw [hip] at hE1
          cases hE1
        refine ⟨entry'', ?_, hE2⟩
        rw [alLookup_insert_ne e c.cache.store hipne]
        exact hE1

/-- `insert_with_ttl` of a fresh pair preserves `WF` and `Inv`. -/
theorem arp_insertWithTtl_preserves (c : ArpCache) (ip : Ipv4Addr)
    (mac : MacAddress) (ttl : Option Nat)
    (hwf : c.WF) (hinv : c.Inv)
    (hip : alLookup ip c.cache.store = none)
    (hmac : alLookup mac c.rmap = none) :
    (c.insertWithTtl ip mac ttl).1.WF ∧ (c.insertWithTtl ip mac ttl).1.Inv :=
  arp_insert_core c ip mac
    ⟨⟨mac, ip⟩,
      (ttl.orElse (fun _ => c.cache.defaultTtl)).map (c.cache.now + ·)⟩
    rfl hwf hinv hip hmac

/-- `ArpCache::insert` is `insert_with_ttl` with the default TTL. -/
theorem arp_insert_eq_insertWithTtl (c : ArpCache) (ip : Ipv4Addr)
    (mac : MacAddress) : c.insert ip mac = c.insertWithTtl ip mac none := rfl

/-- `remove` of a present key preserves `WF` and `Inv` (and under `Inv`
its internal reverse-map assertion cannot fire). -/
theorem arp_remove_preserves (c : ArpCache) (ip : Ipv4Addr) (c2 : ArpCache)
    (hwf : c.WF) (hinv : c.Inv) (hrem : c.remove ip = some c2) :
    c2.WF ∧ c2.Inv := by
  cases h1 : alLookup ip c.cache.store with
  | none => simp [ArpCache.remove, h1] at hrem
  | some entry =>
    cases h2 : alLookup entry.value.linkAddr c.rmap with
    | none => simp [ArpCache.remove, h1, h2] at hrem
    | some ip0 =>
      have hc2 : ArpCache.mk
          { c.cache with store := alRemove ip c.cache.store }
          (alRemove entry.value.linkAddr c.rmap) = c2 := by
        simpa [ArpCache.remove, h1, h2] using hrem
      rw [← hc2]
      constructor
      · exact nodup_alKeys_remove hwf
      · constructor
        · intro ip' entry' h'
          have hne : ip ≠ ip' := by
            intro hh
            rw [← hh, alLookup_remove_self] at h'
            cases h'
          rw [alLookup_remove_ne c.cache.store hne] at h'
          obtain ⟨ha, hb⟩ := hinv.1 ip' entry' h'
          have hmacne : entry.value.linkAddr ≠ entry'.value.linkAddr := by
            intro hh
            rw [← hh] at hb
            have hb2 := (hinv.1 ip entry h1).2
            rw [hb] at hb2
            have hip' : ip' = ip := by injection hb2
            exact hne hip'.symm
          refine ⟨ha, ?_⟩
          rw [alLookup_remove_ne c.rmap hmacne]
          exact hb
        · intro mac' ip'' h'
          have hmne : entry.value.linkAddr ≠ mac' := by
            intro hh
            rw [← hh, alLookup_remove_self] at h'
            cases h'
          rw [alLookup_remove_ne c.rmap hmne] at h'
          obtain ⟨entry'', hE1, hE2⟩ := hinv.2 mac' ip'' h'
          have hipne : ip ≠ ip'' := by
            intro hh
            rw [← hh, h1] at hE1
            have hcc : entry = entry'' := by injection hE1
            rw [← hcc] at hE2
            exact hmne hE2
          refine ⟨entry'', ?_, hE2⟩
          rw [alLookup_remove_ne c.cache.store hipne]
          exact hE1

/-- `try_evict` preserves `WF` and `Inv` for any eviction count. -/
theorem arp_tryEvict_preserves :
    ∀ (n : Nat) (c : ArpCache), c.WF → c.Inv →
      (c.tryEvict n).1.WF ∧ (c.tryEvict n).1.Inv := by
  intro n
  induction n with
  | zero => intro c hwf hinv; exact ⟨hwf, hinv⟩
  | succ n ih =>
    intro c hwf hinv
    cases hst : c.cache.store with
    | nil =>
      have hz : c.tryEvict (n + 1) = (c, []) := by
        unfold ArpCache.tryEvict
        rw [hst]
      rw [hz]
      exact ⟨hwf, hinv⟩
    | cons p rest =>
      cases p with
      | mk k e =>
        have hk : alLookup k c.cache.store = some e := by
          rw [hst]
          simp [alLookup]
        have hknotin : k ∉ alKeys rest := by
          have hh : (alKeys c.cache.store).Nodup := hwf
          rw [hst] at hh
          simp only [alKeys, List.map, List.nodup_cons] at hh
          exact hh.1
        have hstep : (c.tryEvict (n + 1)).1 =
            ((ArpCache.mk { c.cache with store := rest }
              (alRemove e.value.linkAddr c.rmap)).tryEvict n).1 := by
          conv_lhs => rw [ArpCache.tryEvict]
          rw [hst]
        rw [hstep]
        apply ih
        · have hh : (alKeys c.cache.store).Nodup := hwf
          rw [hst] at hh
          simp only [alKeys, List.map, List.nodup_cons] at hh
          exact hh.2
        · constructor
          · intro ip' entry' h'
            have hkne : k ≠ ip' := by
              intro hh
              rw [← hh, alLookup_eq_none_of_not_mem hknotin] at h'
              cases h'
            have hs : alLookup ip' c.cache.store = some entry' := by
              rw [hst]
              simp only [alLookup, if_neg hkne]
              exact h'
            obtain ⟨ha, hb⟩ := hinv.1 ip' entry' hs
            have hmacne : e.value.linkAddr ≠ entry'.value.linkAddr := by
              intro hh
              rw [← hh] at hb
              have hb2 := (hinv.1 k e hk).2
              rw [hb] at hb2
              have : ip' = k := by injection hb2
              exact hkne this.symm
            refine ⟨ha, ?_⟩
            rw [alLookup_remove_ne c.rmap hmacne]
            exact hb
          · intro mac' ip'' h'
            have hmne : e.value.linkAddr ≠ mac' := by
              intro hh
              rw [← hh, alLookup_remove_self] at h'
              cases h'
            rw [alLookup_remove_ne c.rmap hmne] at h'
            obtain ⟨entry'', hE1, hE2⟩ := hinv.2 mac' ip'' h'
            have hipne : k ≠ ip'' := by
              intro hh
              rw [← hh, hk] at hE1
              have hcc : e = entry'' := by injection hE1
              rw [← hcc] at hE2
              exact hmne hE2
            refine ⟨entry'', ?_, hE2⟩
            rw [hst] at hE1
            simp only [alLookup, if_neg hipne] at hE1
            exact hE1

/-- `clear` trivially restores `WF` and `Inv`. -/
theorem arp_clear_preserves (c : ArpCache) : c.clear.WF ∧ c.clear.Inv := by
  refine ⟨List.nodup_nil, ?_, ?_⟩
  · intro ip entry h
    exact Option.noConfusion h
  · intro mac ip h
    exact Option.noConfusion h

/-- Forward lookups other than the inserted key are untouched by
`ArpCache::insert`. -/
theorem arp_insert_store_lookup_ne (c : ArpCache) (ip : Ipv4Addr)
    (mac : MacAddress) (x : Ipv4Addr) (hx : ip ≠ x) :
    alLookup x (c.insert ip mac).1.cache.store =
      alLookup x c.cache.store := by
  simp only [ArpCache.insert, HashTtlCache.insert, HashTtlCache.insertWithTtl]
  exact alLookup_insert_ne _ c.cache.store hx

/-- Reverse lookups other than the inserted MAC are untouched by
`ArpCache::insert`. -/
theorem arp_insert_rmap_lookup_ne (c : ArpCache) (ip : Ipv4Addr)
    (mac : MacAddress) (x : MacAddress) (hx : mac ≠ x) :
    alLookup x (c.insert ip mac).1.rmap = alLookup x c.rmap := by
  simp only [ArpCache.insert, HashTtlCache.insert, HashTtlCache.insertWithTtl]
  exact alLookup_insert_ne _ c.rmap hx

/-- Importing a map with pairwise-distinct IPs and pairwise-distinct MACs
that are all fresh preserves `WF` and `Inv`. -/
theorem arp_importList_preserves :
    ∀ (m : List (Ipv4Addr × MacAddress)) (c : ArpCache), c.WF → c.Inv →
      (∀ p ∈ m, alLookup p.1 c.cache.store = none ∧
        alLookup p.2 c.rmap = none) →
      (m.map Prod.fst).Nodup → (m.map Prod.snd).Nodup →
      (c.importList m).WF ∧ (c.importList m).Inv := by
  intro m
  induction m with
  | nil => intro c hwf hinv _ _ _; exact ⟨hwf, hinv⟩
  | cons p rest ih =>
    intro c hwf hinv hfresh hf hs
    cases p with
    | mk ip mac =>
      simp only [List.map] at hf hs
      have hfhead := hfresh (ip, mac) (List.mem_cons_self _ _)
      have hins := arp_insertWithTtl_preserves c ip mac none hwf hinv
        hfhead.1 hfhead.2
      have hfnotin : ip ∉ rest.map Prod.fst := (List.nodup_cons.mp hf).1
      have hsnotin : mac ∉ rest.map Prod.snd := (List.nodup_cons.mp hs).1
      have hfresh2 : ∀ q ∈ rest,
          alLookup q.1 (c.insert ip mac).1.cache.store = none ∧
          alLookup q.2 (c.insert ip mac).1.rmap = none := by
        intro q hq
        have hq1 : ip ≠ q.1 := by
          intro hh
          exact hfnotin (by rw [hh]; exact List.mem_map_of_mem Prod.fst hq)
        have hq2 : mac ≠ q.2 := by
          intro hh
          exact hsnotin (by rw [hh]; exact List.mem_map_of_mem Prod.snd hq)
        have hqf := hfresh q (List.mem_cons_of_mem _ hq)
        refine ⟨?_, ?_⟩
        · rw [arp_insert_store_lookup_ne c ip mac q.1 hq1]
          exact hqf.1
        · rw [arp_insert_rmap_lookup_ne c ip mac q.2 hq2]
          exact hqf.2
      exact ih (c.insert ip mac).1 hins.1 hins.2 hfresh2
        (List.nodup_cons.mp hf).2 (List.nodup_cons.mp hs).2

/-- The empty ARP cache. -/
def arpC0 : ArpCache := ⟨⟨[], 0, none⟩, []⟩

/-- The empty ARP cache satisfies the reverse-index invariant. -/
theorem arpC0_inv : arpC0.Inv :=
  ⟨fun _ _ h => Option.noConfusion h, fun _ _ h => Option.noConfusion h⟩

/-- Two inserts sharing one MAC: `10.0.0.1 → mac 10`, then
`10.0.0.2 → mac 10`. -/
def arpCex : ArpCache := ((arpC0.insert 1 10).1.insert 2 10).1

/-- C4 counterexample: after `insert(ip₁, mac)` then `insert(ip₂, mac)`
with the same MAC, the forward map still holds `ip₁ → mac` but the
reverse map answers `mac → ip₂`, so `rmap[cache[ip₁].mac] ≠ ip₁` and the
claimed invariant fails on this reachable operation sequence. -/
theorem arp_reverse_index_counterexample :
    arpCex.getLinkAddr 1 = some 10 ∧
    arpCex.getIpv4Addr 10 = some 2 ∧
    ¬arpCex.Inv := by
  refine ⟨by decide, by decide, ?_⟩
  intro hinv
  have h := hinv.1 1 ⟨⟨10, 1⟩, none⟩ (by decide)
  exact absurd h.2 (by decide)

/-- C4 (amended): the reverse-index invariant (with duplicate-free
forward keys) is preserved by `remove`, `try_evict`, `clear`, by
`insert`/`insert_with_ttl` of a pair whose IPv4 is not a forward key and
whose MAC is not a reverse key, and by `import` of a map with
pairwise-distinct IPs and pairwise-distinct MACs; an insert aliasing an
existing MAC breaks it (see the counterexample). -/
theorem arp_reverse_index_amended (c : ArpCache) (hwf : c.WF)
    (hinv : c.Inv) :
    (∀ ip mac ttl, alLookup ip c.cache.store = none →
      alLookup mac c.rmap = none →
      ((c.insertWithTtl ip mac ttl).1.WF ∧
        (c.insertWithTtl ip mac ttl).1.Inv) ∧
      ((c.insert ip mac).1.WF ∧ (c.insert ip mac).1.Inv)) ∧
    (∀ ip c2, c.remove ip = some c2 → c2.WF ∧ c2.Inv) ∧
    (∀ n, (c.tryEvict n).1.WF ∧ (c.tryEvict n).1.Inv) ∧
    (c.clear.WF ∧ c.clear.Inv) ∧
    (∀ m, (m.map Prod.fst).Nodup → (m.map Prod.snd).Nodup →
      (c.importCache m).WF ∧ (c.importCache m).Inv) := by
  refine ⟨?_, ?_, ?_, arp_clear_preserves c, ?_⟩
  · intro ip mac ttl hip hmac
    exact ⟨arp_insertWithTtl_preserves c ip mac ttl hwf hinv hip hmac,
           arp_insertWithTtl_preserves c ip mac none hwf hinv hip hmac⟩
  · intro ip c2 hrem
    exact arp_remove_preserves c ip c2 hwf hinv hrem
  · intro n
    exact arp_tryEvict_preserves n c hwf hinv
  · intro m hf hs
    have hcl := arp_clear_preserves c
    exact arp_importList_preserves m c.clear hcl.1 hcl.2
      (fun p _ => ⟨rfl, rfl⟩) hf hs

/-- C4 witness: the amended theorem applied to the empty cache and a
fresh insert. -/
theorem arp_reverse_index_amended_witness :
    (arpC0.insert 5 6).1.WF ∧ (arpC0.insert 5 6).1.Inv :=
  ((arp_reverse_index_amended arpC0 (List.nodup_nil) arpC0_inv).1 5 6 none
    rfl rfl).2

/-- Projecting the MAC out of each record commutes with key removal. -/
theorem map_alRemove {K V W : Type} [DecidableEq K] (g : V → W) (k : K)
    (l : List (K × V)) :
    (alRemove k l).map (fun p => (p.1, g p.2)) =
      alRemove k (l.map (fun p => (p.1, g p.2))) := by
  induction l with
  | nil => rfl
  | cons p rest ih =>
    cases p with
    | mk a b =>
      by_cases hak : a = k
      · simp [alRemove, hak, ih]
      · simp [alRemove, hak, ih]

/-- Exporting after an insert is inserting into the export. -/
theorem arp_export_insert (c : ArpCache) (ip : Ipv4Addr)
    (mac : MacAddress) :
    (c.insert ip mac).1.exportCache = alInsert ip mac c.exportCache := by
  simp only [ArpCache.insert, HashTtlCache.insert, HashTtlCache.insertWithTtl,
    ArpCache.exportCache, alInsert, List.map]
  exact congrArg (List.cons (ip, mac))
    (map_alRemove (fun v => v.value.linkAddr) ip c.cache.store)

/-- First-match preference on optional lookups, used to run the import
iteration. -/
def optOrElse {α : Type} (a b : Option α) : Option α :=
  match a with
  | some v => some v
  | none => b

/-- Lookup in the export of `importList c m`: the imported map wins,
falling back to the starting state's export. -/
theorem arp_importList_export_lookup :
    ∀ (m : List (Ipv4Addr × MacAddress)) (c : ArpCache) (k : Ipv4Addr),
      (m.map Prod.fst).Nodup →
      alLookup k (c.importList m).exportCache =
        optOrElse (alLookup k m) (alLookup k c.exportCache) := by
  intro m
  induction m with
  | nil => intro c k _; rfl
  | cons p rest ih =>
    intro c k hnd
    cases p with
    | mk ip mac =>
      simp only [List.map] at hnd
      have hnd2 : (rest.map Prod.fst).Nodup := (List.nodup_cons.mp hnd).2
      have hnotin : ip ∉ rest.map Prod.fst := (List.nodup_cons.mp hnd).1
      have hunf : c.importList ((ip, mac) :: rest) =
          (c.insert ip mac).1.importList rest := rfl
      rw [hunf, ih _ k hnd2, arp_export_insert]
      by_cases hk : ip = k
      · subst hk
        have hrest : alLookup ip rest = none := by
          apply alLookup_eq_none_of_not_mem
          simpa [alKeys] using hnotin
        simp [alLookup, hrest, optOrElse, alLookup_insert_self]
      · rw [alLookup_insert_ne mac c.exportCache hk]
        simp only [alLookup, if_neg hk]

/-- C8: importing the export of an ARP cache reproduces exactly its
ipv4→MAC associations (export-after-roundtrip agrees with the original
export on every key; TTLs are reset to the default by `insert`). -/
theorem arp_export_import_roundtrip (c : ArpCache) (hwf : c.WF)
    (ip : Ipv4Addr) :
    alLookup ip (c.importCache c.exportCache).exportCache =
      alLookup ip c.exportCache := by
  have hkeys : (c.exportCache.map Prod.fst).Nodup := by
    have hh : c.exportCache.map Prod.fst = alKeys c.cache.store := by
      simp [ArpCache.exportCache, alKeys, List.map_map, Function.comp]
    rw [hh]
    exact hwf
  have h := arp_importList_export_lookup c.exportCache c.clear ip hkeys
  rw [show c.importCache c.exportCache = c.clear.importList c.exportCache
    from rfl, h]
  cases halv : alLookup ip c.exportCache with
  | none => rfl
  | some mac => rfl

/-- C8 witness: the theorem applied to a two-entry cache. -/
theorem arp_export_import_roundtrip_witness :
    alLookup 1 ((arpCex.importCache arpCex.exportCache).exportCache) =
      alLookup 1 arpCex.exportCache :=
  arp_export_import_roundtrip arpCex
    (show (alKeys arpCex.cache.store).Nodup by decide) 1

end Catnip
